import Mathlib

/-!
Verification of the brackets-node-filesystem RPC bridge.

The development shallowly embeds the three source files:
  - `node/NodeFileSystemDomain.js` (worker side: stat codec, command handlers,
    watcher map),
  - `NodeFileSystem.js` and its variant (facade side: request scheduler,
    watcher coalescer, error translation, writeFile/readAllFiles logic).

JavaScript strings are modelled as lists of characters, Node buffers as lists
of byte values, and the asynchronous parts as explicit state machines.
-/

namespace NodeFS

/-! ### JavaScript string primitives -/

/-- A JavaScript string: a sequence of UTF-16 code units, modelled by chars. -/
abbrev JStr := List Char

/-- `s.charCodeAt(i)`: the code unit at index `i`, `none` standing for the
NaN produced on an out-of-range index. -/
def charCodeAt (s : JStr) (i : Nat) : Option Nat :=
  (s.get? i).map Char.toNat

/-- Model of JavaScript ToNumber coercion on a string, as far as the paths
appearing here need it: a nonempty all-digit string denotes its numeric
value, anything else (in particular any string containing a path separator)
is NaN, modelled as `none`.  (The sign/whitespace/float cases of full JS
coercion never arise for the absolute path strings fed to it.) -/
def jsToNumber (s : JStr) : Option Nat :=
  if s ≠ [] ∧ s.all Char.isDigit then
    some (s.foldl (fun acc c => acc * 10 + (c.toNat - 48)) 0)
  else none

/-! ### Node Buffer primitives

Buffers are lists of byte values.  Node's checked write primitives throw on
a NaN/out-of-range value or an out-of-bounds offset; a throwing write is
modelled by `none`. -/

/-- Overwrite `buf[offset .. offset + bytes.length)` with `bytes`
(unchecked splice; callers check bounds). -/
def writeBytesAt (buf : List Nat) (bytes : List Nat) (offset : Nat) : List Nat :=
  buf.take offset ++ bytes ++ buf.drop (offset + bytes.length)

/-- `buffer.writeUInt16LE(value, offset)` with Node's default checking:
fails (throws) when the value is NaN (`none`), exceeds 0xffff, or the
two written bytes would fall outside the buffer. -/
def writeUInt16LE (buf : List Nat) (value : Option Nat) (offset : Nat) :
    Option (List Nat) :=
  match value with
  | none => none
  | some v =>
    if v ≤ 65535 ∧ offset + 2 ≤ buf.length then
      some (writeBytesAt buf [v % 256, v / 256] offset)
    else none

/-- The 8-byte little-endian IEEE-754 serialization used by
`buffer.writeDoubleLE`.  The bit-level float encoding is outside the wire
contract under scrutiny; only its fixed 8-byte width matters, so the codec
is abstracted as any 8-byte-per-value encoder. -/
structure DoubleLE where
  enc : Int → List Nat
  len8 : ∀ x, (enc x).length = 8

/-- A concrete 8-byte encoder, used to instantiate witnesses. -/
def doubleLEzero : DoubleLE :=
  ⟨fun _ => List.replicate 8 0, fun _ => rfl⟩

/-! ### StatCodec (worker side, `_getStatsBuffer` / `_getStatsObject`) -/

/-- The fields of a Node `fs.Stats` value that the codec reads. -/
structure RawStats where
  isDirectory : Bool
  mtimeMs : Int
  size : Int
deriving DecidableEq, Repr

/-- The write loop of `_getStatsBuffer`:
`for (i = 0; i < realpathBytes; i++) buffer.writeUInt16LE(realpath.charCodeAt(i), 2*i + 18)`.
The first argument counts the remaining iterations (initially
`realpathBytes`), the second is the loop index `i`. -/
def statsBufferLoop (realpath : JStr) : Nat → Nat → List Nat → Option (List Nat)
  | 0, _, buf => some buf
  | n + 1, i, buf =>
    match writeUInt16LE buf (charCodeAt realpath i) (2 * i + 18) with
    | none => none
    | some buf2 => statsBufferLoop realpath n (i + 1) buf2

/-- `_getStatsBuffer(stats, realpath)`: the dense binary stat encoding.
`realpathBytes` is `realpath.length * 2` when the realpath is truthy
(a nonempty string), the asserted bound is `realpathBytes < 32768`, the
flags field is `(realpathBytes << 1) | fileBit`, and the code-unit loop
runs `realpathBytes` times.  `none` models a thrown assertion or a failed
checked buffer write. -/
def getStatsBuffer (d : DoubleLE) (stats : RawStats) (realpath : Option JStr) :
    Option (List Nat) :=
  let realpathBytes : Nat :=
    match realpath with
    | some p => if p ≠ [] then p.length * 2 else 0
    | none => 0
  let fileBit : Nat := if stats.isDirectory then 0 else 1
  let flags : Nat := (realpathBytes <<< 1) ||| fileBit
  let buffer : List Nat := List.replicate (18 + realpathBytes) 0
  if realpathBytes < 32768 then
    let buf1 := writeBytesAt buffer (d.enc stats.mtimeMs) 0
    let buf2 := writeBytesAt buf1 (d.enc stats.size) 8
    match writeUInt16LE buf2 (some flags) 16 with
    | none => none
    | some buf3 => statsBufferLoop (realpath.getD []) realpathBytes 0 buf3
  else none

/-- The file bit of the flags field: 1 for a file, 0 for a directory. -/
def fileBitOf (stats : RawStats) : Nat :=
  if stats.isDirectory then 0 else 1

/-! #### Lemmas about the binary encoder -/

theorem writeBytesAt_length {buf bytes : List Nat} {offset : Nat}
    (h : offset + bytes.length ≤ buf.length) :
    (writeBytesAt buf bytes offset).length = buf.length := by
  simp only [writeBytesAt, List.length_append, List.length_take, List.length_drop]
  omega

theorem statsBufferLoop_none (p : JStr) (hp : p ≠ []) :
    ∀ n i buf, n + i = 2 * p.length → i ≤ p.length →
      buf.length = 18 + 2 * p.length →
      statsBufferLoop p n i buf = none := by
  intro n
  induction n with
  | zero =>
    intro i buf htot hi _
    exfalso
    have : p.length = 0 := by omega
    exact hp (List.eq_nil_of_length_eq_zero this)
  | succ n ih =>
    intro i buf htot hi hlen
    by_cases hiR : i < p.length
    · -- in-range character: the write either throws on its own or the loop
      -- continues one step closer to the overrun
      have hv : charCodeAt p i = some (p.get ⟨i, hiR⟩).toNat := by
        rw [charCodeAt, List.get?_eq_get hiR]; rfl
      set v := (p.get ⟨i, hiR⟩).toNat with hvdef
      simp only [statsBufferLoop, writeUInt16LE, hv]
      by_cases hc : v ≤ 65535 ∧ 2 * i + 18 + 2 ≤ buf.length
      · simp only [if_pos hc]
        apply ih
        · omega
        · omega
        · rw [writeBytesAt_length]
          · exact hlen
          · simp only [List.length_cons, List.length_nil]
            omega
      · simp [if_neg hc]
    · -- i = p.length: charCodeAt yields NaN and the checked write throws
      have hnone : charCodeAt p i = none := by
        rw [charCodeAt, List.get?_eq_none.2 (by omega : p.length ≤ i)]; rfl
      simp [statsBufferLoop, writeUInt16LE, hnone]

/-- Character count of an optional resolved path (0 if absent). -/
def realpathChars : Option JStr → Nat
  | some p => p.length
  | none => 0

/-- Read the 16-bit little-endian value stored at `off`. -/
def read16LE (buf : List Nat) (off : Nat) : Option Nat :=
  match buf.get? off, buf.get? (off + 1) with
  | some lo, some hi => some (lo + 256 * hi)
  | _, _ => none

theorem fileBitOf_le_one (st : RawStats) : fileBitOf st ≤ 1 := by
  unfold fileBitOf; split <;> decide

/-- With no (or an empty, hence falsy) resolved path, `_getStatsBuffer`
produces exactly the two 8-byte double fields followed by the two flag
bytes `[fileBit, 0]`. -/
theorem getStatsBuffer_zero (d : DoubleLE) (st : RawStats) (rp : Option JStr)
    (h0 : realpathChars rp = 0) :
    getStatsBuffer d st rp =
      some (d.enc st.mtimeMs ++ d.enc st.size ++ [fileBitOf st, 0]) := by
  have hm := d.len8 st.mtimeMs
  have hs := d.len8 st.size
  have hb1 : writeBytesAt (List.replicate 18 0) (d.enc st.mtimeMs) 0
      = d.enc st.mtimeMs ++ List.replicate 10 0 := by
    simp [writeBytesAt, hm, List.drop_replicate]
  have hb2 : writeBytesAt (d.enc st.mtimeMs ++ List.replicate 10 0) (d.enc st.size) 8
      = (d.enc st.mtimeMs ++ d.enc st.size) ++ List.replicate 2 0 := by
    unfold writeBytesAt
    rw [hs, show (8:Nat) + 8 = (d.enc st.mtimeMs).length + 8 by rw [hm],
      List.drop_append_eq_append_drop,
      List.drop_eq_nil_of_le (by omega : (d.enc st.mtimeMs).length ≤ (d.enc st.mtimeMs).length + 8),
      show (d.enc st.mtimeMs).length + 8 - (d.enc st.mtimeMs).length = 8 by omega,
      List.drop_replicate, show (10:Nat) - 8 = 2 by 
 rfl]
    rw [show (8:Nat) = (d.enc st.mtimeMs).length by rw [hm], List.take_left]
    simp
  have hlen2 : ((d.enc st.mtimeMs ++ d.enc st.size) ++ List.replicate 2 0).length = 18 := by
    simp [hm, hs]
  have hfb : fileBitOf st ≤ 1 := fileBitOf_le_one st
  have h16 : (d.enc st.mtimeMs ++ d.enc st.size).length = 16 := by
    simp [hm, hs]
  have hw : writeUInt16LE (d.enc st.mtimeMs ++ d.enc st.size ++ List.replicate 2 0)
      (some (fileBitOf st)) 16
      = some (d.enc st.mtimeMs ++ d.enc st.size ++ [fileBitOf st, 0]) := by
    have hcond : fileBitOf st ≤ 65535 ∧
        16 + 2 ≤ (d.enc st.mtimeMs ++ d.enc st.size ++ List.replicate 2 0).length := by
      refine ⟨by omega, ?_⟩
      rw [hlen2]
    simp only [writeUInt16LE, if_pos hcond]
    congr 1
    unfold writeBytesAt
    rw [Nat.mod_eq_of_lt (by omega : fileBitOf st < 256),
      Nat.div_eq_of_lt (by omega : fileBitOf st < 256),
      show (16:Nat) = (d.enc st.mtimeMs ++ d.enc st.size).length from h16.symm,
      List.take_left, List.drop_append_eq_append_drop,
      List.drop_eq_nil_of_le (by omega), Nat.add_sub_cancel_left]
    simp
  have hflags : (0 <<< 1) ||| (if st.isDirectory then (0:Nat) else 1) = fileBitOf st := by
    rw [Nat.zero_shiftLeft, Nat.zero_or]; rfl
  have main : getStatsBuffer d st none =
      some (d.enc st.mtimeMs ++ d.enc st.size ++ [fileBitOf st, 0]) := by
    simp only [getStatsBuffer, Option.getD_none, Nat.add_zero]
    rw [if_pos (by omega : (0:Nat) < 32768), hb1, hb2, hflags, hw]
    -- the remaining match and the empty loop reduce definitionally
    rfl
  -- an empty (falsy) realpath string takes exactly the same path
  have hsome : getStatsBuffer d st (some []) = getStatsBuffer d st none := rfl
  have hshape : rp = none ∨ rp = some [] := by
    match rp with
    | none => exact Or.inl rfl
    | some p =>
      refine Or.inr ?_
      have hpl : p.length = 0 := h0
      rw [List.eq_nil_of_length_eq_zero hpl]
  rcases hshape with h | h
  · rw [h]; exact main
  · rw [h, hsome]; exact main

theorem writeUInt16LE_length {buf out : List Nat} {v : Option Nat} {off : Nat}
    (h : writeUInt16LE buf v off = some out) : out.length = buf.length := by
  match v with
  | none => simp [writeUInt16LE] at h
  | some x =>
    by_cases hc : x ≤ 65535 ∧ off + 2 ≤ buf.length
    · simp only [writeUInt16LE, if_pos hc, Option.some_inj] at h
      rw [← h]
      exact writeBytesAt_length (by simpa using hc.2)
    · simp [writeUInt16LE, if_neg hc] at h

/-- With a nonempty resolved path, `_getStatsBuffer` always throws: the
code-unit loop iterates over the byte count `2 * R` and the checked write
runs past the end of the `18 + 2 * R`-byte buffer (at index `R` at the
latest, where `charCodeAt` is already NaN). -/
theorem getStatsBuffer_pos (d : DoubleLE) (st : RawStats) (p : JStr)
    (hp : p ≠ []) : getStatsBuffer d st (some p) = none := by
  have hm := d.len8 st.mtimeMs
  have hs := d.len8 st.size
  simp only [getStatsBuffer, Option.getD_some]
  have hRB : (if p ≠ [] then p.length * 2 else 0) = p.length * 2 := if_pos hp
  rw [hRB]
  by_cases hlt : p.length * 2 < 32768
  · rw [if_pos hlt]
    have hl1 : (writeBytesAt (List.replicate (18 + p.length * 2) 0)
        (d.enc st.mtimeMs) 0).length = 18 + p.length * 2 := by
      rw [writeBytesAt_length] <;> simp [hm] <;> omega
    have hl2 : (writeBytesAt (writeBytesAt (List.replicate (18 + p.length * 2) 0)
        (d.enc st.mtimeMs) 0) (d.enc st.size) 8).length = 18 + p.length * 2 := by
      rw [writeBytesAt_length] <;> simp [hs, hl1] <;> omega
    cases hwr : writeUInt16LE (writeBytesAt (writeBytesAt
        (List.replicate (18 + p.length * 2) 0) (d.enc st.mtimeMs) 0)
        (d.enc st.size) 8)
        (some ((p.length * 2) <<< 1 ||| if st.isDirectory then 0 else 1)) 16 with
    | none => rfl
    | some buf3 =>
      have hl3 : buf3.length = 18 + 2 * p.length := by
        rw [writeUInt16LE_length hwr, hl2]; ring
      exact statsBufferLoop_none p hp (p.length * 2) 0 buf3 (by ring) (by omega) hl3
  · rw [if_neg hlt]

/-- Claim C1, counterexample: the claim asserts that encoding is accepted for
every resolved-path character count `R < 2^15` and yields an `18 + 2*R`-byte
buffer.  Already at `R = 1` (resolved path "a", a file record) the source
throws instead of producing a 20-byte buffer: the code-unit loop runs over
the byte count `2*R` and writes past the end of the buffer. -/
theorem C1_counterexample :
    getStatsBuffer doubleLEzero ⟨false, 0, 0⟩ (some ['a']) = none := by
  decide

/-- Claim C1 (amended): binary encoding succeeds exactly when the resolved
path is absent or empty (`R = 0`); the buffer is then the two 8-byte double
fields followed by the flag bytes `[fileBit, 0]` — 18 = 18 + 2*R bytes, with
bytes 16–17 holding the little-endian value `(R << 1) | fileBit` (which at
`R = 0` coincides with the code's actual flags formula
`((2*R) << 1) | fileBit`).  For every `R ≥ 1` — in particular every
`R < 2^15` the claim calls accepted — encoding throws, because the
code-unit loop iterates over the byte count `2*R` and overruns the
`18 + 2*R`-byte buffer; independently, the length assertion rejects byte
counts `≥ 2^15`, i.e. already `R ≥ 2^14` rather than `R ≥ 2^15`. -/
theorem C1_binary_encoding (d : DoubleLE) (st : RawStats) (rp : Option JStr) :
    (realpathChars rp = 0 →
      getStatsBuffer d st rp =
        some (d.enc st.mtimeMs ++ d.enc st.size ++ [fileBitOf st, 0]) ∧
      ∀ buf, getStatsBuffer d st rp = some buf →
        buf.length = 18 + 2 * realpathChars rp ∧
        read16LE buf 16 = some (realpathChars rp <<< 1 ||| fileBitOf st)) ∧
    (0 < realpathChars rp → getStatsBuffer d st rp = none) := by
  constructor
  · intro h0
    have hEq := getStatsBuffer_zero d st rp h0
    refine ⟨hEq, ?_⟩
    intro buf hbuf
    rw [hEq, Option.some_inj] at hbuf
    subst hbuf
    have hm := d.len8 st.mtimeMs
    have hs := d.len8 st.size
    have h16 : (d.enc st.mtimeMs ++ d.enc st.size).length = 16 := by
      simp [hm, hs]
    constructor
    · simp [hm, hs, h0]
    · rw [h0, Nat.zero_shiftLeft, Nat.zero_or]
      unfold read16LE
      rw [List.get?_append_right (by omega), List.get?_append_right (by omega),
        h16]
      norm_num
  · intro hpos
    match rp with
    | none => simp [realpathChars] at hpos
    | some p =>
      apply getStatsBuffer_pos
      intro hnil
      rw [hnil] at hpos
      simp [realpathChars] at hpos

/-- Witness for `C1_binary_encoding` at concrete inputs: a directory record
with no resolved path encodes to the 18-byte buffer, and a file record with
the two-character resolved path "ab" is rejected. -/
theorem C1_binary_encoding_witness :
    getStatsBuffer doubleLEzero ⟨true, 3, 4⟩ none =
      some (List.replicate 8 0 ++ List.replicate 8 0 ++ [0, 0]) ∧
    getStatsBuffer doubleLEzero ⟨false, 0, 0⟩ (some ['a', 'b']) = none :=
  ⟨((C1_binary_encoding doubleLEzero ⟨true, 3, 4⟩ none).1 (by decide)).1,
   (C1_binary_encoding doubleLEzero ⟨false, 0, 0⟩ (some ['a', 'b'])).2 (by decide)⟩

/-! ### Normalized error taxonomy and error translation (facade) -/

/-- `FileSystemError` values surfaced to callers. -/
inductive ErrorKind
  | INVALID_PARAMS | NOT_FOUND | NOT_READABLE | NOT_WRITABLE
  | OUT_OF_SPACE | ALREADY_EXISTS | CONTENTS_MODIFIED | UNKNOWN
deriving DecidableEq, Repr

/-- A rejection value arriving from the worker: a promisified fs error
carrying a nested cause code, or a plain string rejection such as
"Binary file" (whose `.cause` is undefined). -/
inductive JsErr
  | fsErr (code : String)
  | strErr (msg : String)
deriving DecidableEq, Repr

/-- `_mapNodeError(err)` from the facade: `ENOENT`, `EEXIST` and `EPERM`
causes are translated, everything else (including a falsy error and a
rejection without a cause) is `UNKNOWN`. -/
def mapNodeError : Option JsErr → ErrorKind
  | none => .UNKNOWN
  | some (.strErr _) => .UNKNOWN
  | some (.fsErr c) =>
    if c = "ENOENT" then .NOT_FOUND
    else if c = "EEXIST" then .ALREADY_EXISTS
    else if c = "EPERM" then .NOT_READABLE
    else .UNKNOWN

/-! ### Worker-side filesystem interface model

The OS calls themselves are out of scope; they are modelled as total
functions over an explicit snapshot of the filesystem.  `errNode` stands
for an entry whose OS calls fail with the given code (e.g. an inaccessible
path). -/

inductive FSNode
  | file (mtime size : Int) (content : JStr) (binary : Bool)
  | dir (mtime size : Int)
  | symlink (target : JStr)
  | errNode (code : String)
deriving DecidableEq, Repr

/-- A filesystem snapshot: association of absolute paths to entries. -/
abbrev FS := List (JStr × FSNode)

def lookupFS : FS → JStr → Option FSNode
  | [], _ => none
  | (p, node) :: rest, path => if p = path then some node else lookupFS rest path

/-- What `fs.lstat` reports about the entry itself. -/
inductive LStat
  | fileStat (mtime size : Int)
  | dirStat (mtime size : Int)
  | linkStat
deriving DecidableEq, Repr

def lstatFS (fs : FS) (path : JStr) : Except String LStat :=
  match lookupFS fs path with
  | none => .error "ENOENT"
  | some (.file m s _ _) => .ok (.fileStat m s)
  | some (.dir m s) => .ok (.dirStat m s)
  | some (.symlink _) => .ok .linkStat
  | some (.errNode c) => .error c

/-- `fs.stat`: follows one symlink hop to the target's stats. -/
def statFS (fs : FS) (path : JStr) : Except String RawStats :=
  match lookupFS fs path with
  | none => .error "ENOENT"
  | some (.file m s _ _) => .ok ⟨false, m, s⟩
  | some (.dir m s) => .ok ⟨true, m, s⟩
  | some (.errNode c) => .error c
  | some (.symlink t) =>
    match lookupFS fs t with
    | some (.file m s _ _) => .ok ⟨false, m, s⟩
    | some (.dir m s) => .ok ⟨true, m, s⟩
    | some (.errNode c) => .error c
    | _ => .error "ENOENT"

/-- `fs.realpath`: the symlink's target when it resolves, the path itself
for a non-link entry. -/
def realpathFS (fs : FS) (path : JStr) : Except String JStr :=
  match lookupFS fs path with
  | none => .error "ENOENT"
  | some (.symlink t) =>
    if (lookupFS fs t).isSome then .ok t else .error "ENOENT"
  | some (.errNode c) => .error c
  | some _ => .ok path

/-- `fs.exists`: true iff an underlying stat (following links) succeeds. -/
def existsFS (fs : FS) (path : JStr) : Bool :=
  match statFS fs path with
  | .ok _ => true
  | .error _ => false

/-! ### `_statHelper` and the structured stat representation -/

/-- The `encoding` argument as the worker receives it: strictly `null`
selects binary mode, anything else (including undefined) structured mode. -/
inductive JsEncoding
  | nullEnc
  | undefinedEnc
  | strEnc (s : String)
deriving DecidableEq, Repr

/-- `_getStatsObject`: the structured stat record; the realpath field is
set only when the argument is truthy (a nonempty string). -/
structure StatsObj where
  isFile : Bool
  mtime : Int
  size : Int
  realpath : Option JStr
deriving DecidableEq, Repr

def getStatsObject (stats : RawStats) (realpath : Option JStr) : StatsObj :=
  { isFile := !stats.isDirectory
    mtime := stats.mtimeMs
    size := stats.size
    realpath :=
      match realpath with
      | some r => if r ≠ [] then some r else none
      | none => none }

inductive StatsPayload
  | obj (o : StatsObj)
  | buffer (b : List Nat)
deriving DecidableEq, Repr

/-- `_formatStats(encoding, stats, realpath)`; `none` models the throwing
binary encoder. -/
def formatStats (d : DoubleLE) (enc : JsEncoding) (stats : RawStats)
    (realpath : Option JStr) : Option StatsPayload :=
  if enc = .nullEnc then (getStatsBuffer d stats realpath).map .buffer
  else some (.obj (getStatsObject stats realpath))

/-- `if (path[last] === "/") path = path.substr(0, last)`. -/
def stripTrailingSlash (path : JStr) : JStr :=
  match path.getLast? with
  | some '/' => path.dropLast
  | _ => path

/-- `s[i]` for a possibly negative index (undefined modelled as none). -/
def jsCharAt (s : JStr) (i : Int) : Option Char :=
  if 0 ≤ i then s.get? i.toNat else none

/-- The source's `realpath[realpath - 1] !== "/"`: `realpath - 1` coerces
the realpath string to a number (NaN for any non-numeric string, making
the lookup undefined and the inequation true). -/
def realpathSlashCond (rp : JStr) : Bool :=
  match jsToNumber rp with
  | none => true
  | some k => decide (jsCharAt rp ((k : Int) - 1) ≠ some '/')

/-- `_statHelper(path, encoding)`: strip a trailing slash, lstat; for a
symlink, resolve the real path and target stats and append "/" for
directory targets (per `realpathSlashCond`); format per encoding. -/
def statHelper (d : DoubleLE) (fs : FS) (path0 : JStr) (enc : JsEncoding) :
    Except JsErr StatsPayload :=
  let path := stripTrailingSlash path0
  match lstatFS fs path with
  | .error c => .error (.fsErr c)
  | .ok .linkStat =>
    match realpathFS fs path, statFS fs path with
    | .ok rp0, .ok stats =>
      let rp := if stats.isDirectory ∧ realpathSlashCond rp0 then rp0 ++ ['/'] else rp0
      match formatStats d enc stats (some rp) with
      | some payload => .ok payload
      | none => .error (.strErr "RangeError")
    | .error c, _ => .error (.fsErr c)
    | .ok _, .error c => .error (.fsErr c)
  | .ok (.fileStat m s) =>
    match formatStats d enc ⟨false, m, s⟩ none with
    | some payload => .ok payload
    | none => .error (.strErr "RangeError")
  | .ok (.dirStat m s) =>
    match formatStats d enc ⟨true, m, s⟩ none with
    | some payload => .ok payload
    | none => .error (.strErr "RangeError")

/-! ### Worker command registration (`init`) -/

inductive CmdHandler
  | readdirH | readFileH | readAllFilesH | statH | existsH | writeFileH
  | mkdirH | renameH | unlinkH | watchPathH | unwatchPathH | unwatchAllH
deriving DecidableEq, Repr

/-- The command table built by `init(domainManager)`: each
`registerCommand` call in source order.  Note that the "exists" command is
registered with `statCmd` (the `existsCmd` handler exists in the source
but is never registered). -/
def registeredCommands : List (String × CmdHandler) :=
  [("readdir", .readdirH),
   ("readFile", .readFileH),
   ("readAllFiles", .readAllFilesH),
   ("stat", .statH),
   ("exists", .statH),
   ("writeFile", .writeFileH),
   ("mkdir", .mkdirH),
   ("rename", .renameH),
   ("unlink", .unlinkH),
   ("watchPath", .watchPathH),
   ("unwatchPath", .unwatchPathH),
   ("unwatchAll", .unwatchAllH)]

def lookupCmd : List (String × CmdHandler) → String → Option CmdHandler
  | [], _ => none
  | (n, h) :: rest, nm => if n = nm then some h else lookupCmd rest nm

/-- `statCmd(path, callback)`: `_statHelper(path)` with undefined encoding,
hence always the structured representation. -/
def statCmd (d : DoubleLE) (fs : FS) (path : JStr) : Except JsErr StatsPayload :=
  statHelper d fs path .undefinedEnc

/-- The payload a single-path command resolves with. -/
inductive CmdPayload
  | statPayload (p : StatsPayload)
  | boolPayload (b : Bool)
deriving DecidableEq, Repr

/-- Dispatch a single-path command through the registered handler table
(`statH` runs `statCmd`; a correctly wired `existsH` would resolve with
the boolean from `fs.exists`). -/
def runFsCommand (d : DoubleLE) (fs : FS) (nm : String) (path : JStr) :
    Except JsErr CmdPayload :=
  match lookupCmd registeredCommands nm with
  | some .statH => (statCmd d fs path).map .statPayload
  | some .existsH => .ok (.boolPayload (existsFS fs path))
  | _ => .error (.strErr "unmodelled command")

/-- Decidable equality for Except results, used to evaluate commands on
concrete snapshots. -/
instance {ε α : Type} [DecidableEq ε] [DecidableEq α] :
    DecidableEq (Except ε α) := fun x y =>
  match x, y with
  | .ok a, .ok b =>
    if h : a = b then isTrue (by rw [h])
    else isFalse (fun hh => h (by cases hh; rfl))
  | .error a, .error b =>
    if h : a = b then isTrue (by rw [h])
    else isFalse (fun hh => h (by cases hh; rfl))
  | .ok _, .error _ => isFalse (fun hh => by cases hh)
  | .error _, .ok _ => isFalse (fun hh => by cases hh)

/-- Demo snapshot used to evaluate the registered "exists" command. -/
def fsExistsDemo : FS := [(['/', 't', 'm', 'p'], FSNode.dir 5 0)]

/-- Claim C3 (code bug): the spec says the worker's exists command resolves
with a boolean.  The source registers `statCmd` as the handler of the
"exists" command (its own registration metadata declares a boolean result,
and an `existsCmd` exists but is never registered), so "exists" resolves
with a structured stat record for an existing path — never a boolean — and
rejects with ENOENT for a missing path instead of resolving `false`. -/
theorem C3_exists_registered_as_stat :
    lookupCmd registeredCommands "exists" = some CmdHandler.statH ∧
    runFsCommand doubleLEzero fsExistsDemo "exists" ['/', 't', 'm', 'p'] =
      .ok (.statPayload (.obj ⟨false, 5, 0, none⟩)) ∧
    (∀ b, runFsCommand doubleLEzero fsExistsDemo "exists" ['/', 't', 'm', 'p'] ≠
      .ok (.boolPayload b)) ∧
    runFsCommand doubleLEzero fsExistsDemo "exists" ['/', 'n', 'o'] =
      .error (.fsErr "ENOENT") ∧
    (∀ b, runFsCommand doubleLEzero fsExistsDemo "exists" ['/', 'n', 'o'] ≠
      .ok (.boolPayload b)) := by
  decide

/-! ### Claim C8: resolvedPath presence and directory slash -/

theorem lookupFS_mem {fs : FS} {p : JStr} {nd : FSNode}
    (h : lookupFS fs p = some nd) : (p, nd) ∈ fs := by
  induction fs with
  | nil => cases h
  | cons e rest ih =>
    obtain ⟨q, m⟩ := e
    by_cases hq : q = p
    · subst hq
      have hmn : m = nd := by simpa [lookupFS] using h
      subst hmn
      exact List.mem_cons_self _ _
    · simp only [lookupFS, if_neg hq] at h
      exact List.mem_cons_of_mem _ (ih h)

theorem lstatFS_link_iff {fs : FS} {path : JStr} :
    lstatFS fs path = .ok .linkStat ↔
      ∃ t, lookupFS fs path = some (.symlink t) := by
  unfold lstatFS
  cases h : lookupFS fs path with
  | none => simp
  | some nd => cases nd <;> simp

theorem jsToNumber_of_head_slash {t : JStr} (h : t.head? = some '/') :
    jsToNumber t = none := by
  cases t with
  | nil => cases h
  | cons c rest =>
    have hc : c = '/' := by simpa using h
    subst hc
    simp [jsToNumber, List.all_cons, Char.isDigit]

theorem realpathSlashCond_of_head_slash {t : JStr} (h : t.head? = some '/') :
    realpathSlashCond t = true := by
  unfold realpathSlashCond
  rw [jsToNumber_of_head_slash h]

/-- Claim C8: for every structured StatRecord produced by the stat
operation, the resolvedPath field is present iff the (slash-stripped)
lookup target was a symbolic link; and when the resolved target is a
directory the resolvedPath ends with a path separator.  (Hypothesis: the
snapshot's symlink targets are absolute paths, i.e. start with "/".) -/
theorem C8_resolvedPath_iff_symlink (d : DoubleLE) (fs : FS) (path : JStr)
    (o : StatsObj)
    (habs : ∀ pr t, (pr, FSNode.symlink t) ∈ fs → t.head? = some '/')
    (h : statHelper d fs path .undefinedEnc = .ok (.obj o)) :
    (o.realpath.isSome = true ↔
      lstatFS fs (stripTrailingSlash path) = .ok .linkStat) ∧
    (∀ rp, o.realpath = some rp → o.isFile = false →
      rp.getLast? = some '/') := by
  cases hl : lstatFS fs (stripTrailingSlash path) with
  | error c => rw [statHelper] at h; rw [hl] at h; cases h
  | ok ls =>
    cases ls with
    | fileStat m s =>
      rw [statHelper] at h; rw [hl] at h
      simp only [formatStats, getStatsObject, reduceCtorEq, if_false,
        Option.some_inj, Except.ok.injEq, StatsPayload.obj.injEq] at h
      subst h
      constructor
      · simp [hl]
      · intro rp hrp
        cases hrp
    | dirStat m s =>
      rw [statHelper] at h; rw [hl] at h
      simp only [formatStats, getStatsObject, reduceCtorEq, if_false,
        Option.some_inj, Except.ok.injEq, StatsPayload.obj.injEq] at h
      subst h
      constructor
      · simp [hl]
      · intro rp hrp
        cases hrp
    | linkStat =>
      rw [statHelper] at h; rw [hl] at h
      cases hrp : realpathFS fs (stripTrailingSlash path) with
      | error c => rw [hrp] at h; cases h
      | ok rp0 =>
        cases hst : statFS fs (stripTrailingSlash path) with
        | error c => rw [hrp, hst] at h; cases h
        | ok stats =>
          rw [hrp, hst] at h
          -- the realpath handed to the formatter is the symlink target,
          -- which by hypothesis starts with "/"
          obtain ⟨t, hlk⟩ := lstatFS_link_iff.1 hl
          have hrp0 : rp0 = t := by
            unfold realpathFS at hrp
            rw [hlk] at hrp
            by_cases hsome : (lookupFS fs t).isSome
            · simp only [if_pos hsome, Except.ok.injEq] at hrp
              exact hrp.symm
            · simp [if_neg hsome] at hrp
          subst hrp0
          have hhead : rp0.head? = some '/' := habs _ _ (lookupFS_mem hlk)
          have htne : rp0 ≠ [] := by
            intro hnil
            rw [hnil] at hhead
            cases hhead
          simp only [formatStats, getStatsObject, reduceCtorEq, if_false,
            Option.some_inj, Except.ok.injEq, StatsPayload.obj.injEq] at h
          have hrpne :
              (if stats.isDirectory ∧ realpathSlashCond rp0 then rp0 ++ ['/']
                else rp0) ≠ [] := by
            split
            · simp
            · exact htne
          rw [if_pos hrpne] at h
          subst h
          constructor
          · simp [hl]
          · intro rp2 hrp2 hfile
            simp only [Option.some_inj] at hrp2
            have hdir : stats.isDirectory = true := by
              simpa using hfile
            have hcond : stats.isDirectory = true ∧ realpathSlashCond rp0 = true :=
              ⟨hdir, realpathSlashCond_of_head_slash hhead⟩
            rw [if_pos hcond] at hrp2
            rw [← hrp2, List.getLast?_concat]

/-- Snapshot with a symlink "/l" to the directory "/d". -/
def fsLinkDemo : FS :=
  [(['/', 'l'], FSNode.symlink ['/', 'd']), (['/', 'd'], FSNode.dir 1 2)]

/-- Witness for `C8_resolvedPath_iff_symlink`: the symlink "/l" to the
directory "/d" yields a record with resolvedPath "/d/" present. -/
theorem C8_resolvedPath_iff_symlink_witness :
    ((StatsObj.mk false 1 2 (some ['/', 'd', '/'])).realpath.isSome = true ↔
      lstatFS fsLinkDemo (stripTrailingSlash ['/', 'l']) = .ok .linkStat) ∧
    (∀ rp, (StatsObj.mk false 1 2 (some ['/', 'd', '/'])).realpath = some rp →
      (StatsObj.mk false 1 2 (some ['/', 'd', '/'])).isFile = false →
      rp.getLast? = some '/') :=
  C8_resolvedPath_iff_symlink doubleLEzero fsLinkDemo ['/', 'l']
    ⟨false, 1, 2, some ['/', 'd', '/']⟩
    (by
      intro pr t hmem
      simp only [fsLinkDemo, List.mem_cons, List.not_mem_nil, or_false] at hmem
      rcases hmem with h | h
      · injection h with h1 h2
        injection h2 with h3
        subst h3
        rfl
      · injection h with h1 h2
        injection h2)
    (by decide)

/-! ### Worker watcher map (`watchPath`, `unwatchPath`, `unwatchAll`) -/

/-- The worker's watcher registry `_watcherMap`, plus a counter of watcher
objects ever created (so that "no second watcher is created" is
observable). -/
structure WatcherState where
  map : List (JStr × Nat)
  nextId : Nat
deriving DecidableEq, Repr

/-- `_watcherMap.hasOwnProperty(path)` lookup. -/
def lookupW : List (JStr × Nat) → JStr → Option Nat
  | [], _ => none
  | (p, w) :: rest, q => if p = q then some w else lookupW rest q

/-- `watchPath(path)`: a no-op when the map already holds the path;
otherwise try to create a watcher (`canWatch` models whether `fs.watch`
succeeds or throws; on a throw the map is left unchanged). -/
def watchPathW (canWatch : JStr → Bool) (s : WatcherState) (path : JStr) :
    WatcherState :=
  if (lookupW s.map path).isSome then s
  else if canWatch path then
    { map := s.map ++ [(path, s.nextId)], nextId := s.nextId + 1 }
  else s

/-- `unwatchPath(path)`: stop the watcher if present and delete the map
entry (the `finally` deletes it even if stopping throws). -/
def unwatchPathW (s : WatcherState) (path : JStr) : WatcherState :=
  { s with map := s.map.filter (fun e => e.1 ≠ path) }

/-- `unwatchAll()`: `unwatchPath` for every path in the map. -/
def unwatchAllW (s : WatcherState) : WatcherState :=
  (s.map.map Prod.fst).foldl unwatchPathW s

theorem lookupW_isSome_iff {m : List (JStr × Nat)} {p : JStr} :
    (lookupW m p).isSome = true ↔ p ∈ m.map Prod.fst := by
  induction m with
  | nil => simp [lookupW]
  | cons e rest ih =>
    obtain ⟨q, w⟩ := e
    by_cases hq : q = p
    · subst hq
      simp [lookupW]
    · simp only [lookupW, if_neg hq, List.map_cons, List.mem_cons, ih]
      constructor
      · intro h
        exact Or.inr h
      · rintro (h | h)
        · exact absurd h.symm hq
        · exact h

theorem keys_nodup_watchPathW (c : JStr → Bool) (s : WatcherState) (p : JStr)
    (h : (s.map.map Prod.fst).Nodup) :
    ((watchPathW c s p).map.map Prod.fst).Nodup := by
  unfold watchPathW
  by_cases h1 : (lookupW s.map p).isSome = true
  · rw [if_pos h1]
    exact h
  · rw [if_neg h1]
    by_cases h2 : c p = true
    · rw [if_pos h2]
      have hnm : p ∉ s.map.map Prod.fst := by
        intro hmem
        exact h1 (lookupW_isSome_iff.2 hmem)
      simp only [List.map_append, List.map_cons, List.map_nil]
      rw [List.nodup_append]
      refine ⟨h, List.nodup_singleton p, ?_⟩
      intro x hx hx2
      simp only [List.mem_singleton] at hx2
      subst hx2
      exact hnm hx
    · rw [if_neg h2]
      exact h

theorem keys_nodup_unwatchPathW (s : WatcherState) (p : JStr)
    (h : (s.map.map Prod.fst).Nodup) :
    ((unwatchPathW s p).map.map Prod.fst).Nodup := by
  unfold unwatchPathW
  exact List.Nodup.sublist
    (List.Sublist.map Prod.fst (List.filter_sublist s.map)) h

theorem keys_of_unwatchPathW_subset {s : WatcherState} {p x : JStr}
    (hx : x ∈ (unwatchPathW s p).map.map Prod.fst) :
    x ∈ s.map.map Prod.fst ∧ x ≠ p := by
  simp only [unwatchPathW, List.mem_map, List.mem_filter] at hx
  obtain ⟨e, ⟨hmem, hpred⟩, hfst⟩ := hx
  subst hfst
  refine ⟨List.mem_map_of_mem _ hmem, ?_⟩
  simpa using hpred

theorem unwatchAll_clears : ∀ (ks : List JStr) (s : WatcherState),
    (∀ k, k ∈ s.map.map Prod.fst → k ∈ ks) →
    (ks.foldl unwatchPathW s).map = [] := by
  intro ks
  induction ks with
  | nil =>
    intro s h
    simp only [List.foldl_nil]
    have : s.map.map Prod.fst = [] :=
      List.eq_nil_iff_forall_not_mem.2 (fun x hx => List.not_mem_nil x (h x hx))
    exact List.map_eq_nil_iff.1 this
  | cons k rest ih =>
    intro s h
    simp only [List.foldl_cons]
    apply ih
    intro x hx
    obtain ⟨hmem, hne⟩ := keys_of_unwatchPathW_subset hx
    have := h x hmem
    simp only [List.mem_cons] at this
    rcases this with h | h
    · exact absurd h hne
    · exact h

/-- `unwatchAll()` on the worker removes every watcher. -/
theorem unwatchAllW_map_nil (s : WatcherState) : (unwatchAllW s).map = [] :=
  unwatchAll_clears _ s (fun _ hk => hk)

theorem keys_nodup_unwatchAllW (s : WatcherState) :
    ((unwatchAllW s).map.map Prod.fst).Nodup := by
  rw [unwatchAllW_map_nil]
  exact List.nodup_nil

/-- Claim C10: invoking the worker's watchPath when a watcher for that path
is already active is a no-op (the state, including the watcher-creation
counter, is unchanged); watchPath is idempotent; and all watcher-map
operations preserve at most one watcher per path. -/
theorem C10_watchPath_idempotent (c : JStr → Bool) (s : WatcherState)
    (p : JStr) :
    ((lookupW s.map p).isSome = true → watchPathW c s p = s) ∧
    watchPathW c (watchPathW c s p) p = watchPathW c s p ∧
    ((s.map.map Prod.fst).Nodup →
      ((watchPathW c s p).map.map Prod.fst).Nodup ∧
      ((unwatchPathW s p).map.map Prod.fst).Nodup ∧
      ((unwatchAllW s).map.map Prod.fst).Nodup) := by
  refine ⟨?_, ?_, ?_⟩
  · intro h1
    rw [watchPathW, if_pos h1]
  · by_cases h1 : (lookupW s.map p).isSome = true
    · have hfirst : watchPathW c s p = s := by rw [watchPathW, if_pos h1]
      rw [hfirst]
      exact hfirst
    · by_cases h2 : c p = true
      · have hfirst : watchPathW c s p =
            (⟨s.map ++ [(p, s.nextId)], s.nextId + 1⟩ : WatcherState) := by
          rw [watchPathW, if_neg h1, if_pos h2]
        have hmem : (lookupW
            (⟨s.map ++ [(p, s.nextId)], s.nextId + 1⟩ : WatcherState).map
            p).isSome = true := by
          rw [lookupW_isSome_iff]
          simp
        rw [hfirst, watchPathW, if_pos hmem]
      · have hfirst : watchPathW c s p = s := by
          rw [watchPathW, if_neg h1, if_neg h2]
        rw [hfirst]
        exact hfirst
  · intro hnd
    exact ⟨keys_nodup_watchPathW c s p hnd, keys_nodup_unwatchPathW s p hnd,
      keys_nodup_unwatchAllW s⟩

/-- A watcher-creation environment in which every path is watchable. -/
def canWatchAll : JStr → Bool := fun _ => true

/-- Demo watcher state holding one active watcher on "/a". -/
def watcherDemo : WatcherState := ⟨[(['/', 'a'], 0)], 1⟩

/-- Witness for `C10_watchPath_idempotent`: re-watching the already-watched
"/a" leaves the state unchanged, and nodup keys are preserved when
watching the fresh path "/b". -/
theorem C10_watchPath_idempotent_witness :
    watchPathW canWatchAll watcherDemo ['/', 'a'] = watcherDemo ∧
    ((watchPathW canWatchAll watcherDemo ['/', 'b']).map.map Prod.fst).Nodup :=
  ⟨(C10_watchPath_idempotent canWatchAll watcherDemo ['/', 'a']).1 (by decide),
   ((C10_watchPath_idempotent canWatchAll watcherDemo ['/', 'b']).2.2
      (by decide)).1⟩

/-! ### Claim C4: facade unwatchAll -/

/-- Worker-side dispatch of a watch-related command.  `watchPath` with no
argument models `fs.watch(undefined)`, which throws and is caught, leaving
the map unchanged; `unwatchPath` with no argument finds no entry. -/
def applyWatchCommand (canWatch : JStr → Bool) (s : WatcherState)
    (cmd : String) (arg : Option JStr) : WatcherState :=
  if cmd = "watchPath" then
    match arg with
    | some p => watchPathW canWatch s p
    | none => s
  else if cmd = "unwatchPath" then
    match arg with
    | some p => unwatchPathW s p
    | none => s
  else if cmd = "unwatchAll" then unwatchAllW s
  else s

/-- The worker call issued by the facade's `unwatchAll`:
`_nodeDomain.exec("watchPath")` — the `watchPath` command with no
argument. -/
def unwatchAllIssuedCall : String × Option JStr := ("watchPath", none)

/-- Claim C4 (code bug): the spec says the facade's unwatchAll invokes the
worker's unwatchAll command, which stops and removes every active watcher.
The facade actually execs the worker command "watchPath" (with no path),
which leaves the watcher map untouched; the worker's real unwatchAll
command would have emptied it. -/
theorem C4_unwatchAll_invokes_watchPath :
    unwatchAllIssuedCall.1 = "watchPath" ∧
    unwatchAllIssuedCall.1 ≠ "unwatchAll" ∧
    applyWatchCommand canWatchAll watcherDemo
      unwatchAllIssuedCall.1 unwatchAllIssuedCall.2 = watcherDemo ∧
    watcherDemo.map ≠ [] ∧
    (applyWatchCommand canWatchAll watcherDemo "unwatchAll" none).map = [] := by
  decide

/-! ### WatcherCoalescer (facade `_fileWatcherChange` / `_enqueueChange`) -/

/-- One raw change notification from the worker:
`(parentPath, event, filename)`. -/
structure RawEvt where
  path : JStr
  event : String
  filename : Option JStr
deriving DecidableEq, Repr

/-- What `_fileWatcherChange` registers for one notification: "change"
with a truthy filename registers `path + filename` needing stats; "rename"
registers `path` without stats; anything else registers nothing. -/
def toRegistration (e : RawEvt) : Option (JStr × Bool) :=
  if e.event = "change" then
    match e.filename with
    | some f => if f ≠ [] then some (e.path ++ f, true) else none
    | none => none
  else if e.event = "rename" then some (e.path, false)
  else none

def lookupB : List (JStr × Bool) → JStr → Option Bool
  | [], _ => none
  | (p, v) :: rest, q => if p = q then some v else lookupB rest q

def updateB : List (JStr × Bool) → JStr → Bool → List (JStr × Bool)
  | [], _, _ => []
  | (p, v) :: rest, q, b =>
    if p = q then (p, b) :: rest else (p, v) :: updateB rest q b

/-- `_pendingChanges[change] = _pendingChanges[change] || needsStats`
(JS object property update: an existing key keeps its position, a new key
is appended in insertion order). -/
def enqueueChange (m : List (JStr × Bool)) (change : JStr) (needsStats : Bool) :
    List (JStr × Bool) :=
  match lookupB m change with
  | some v => updateB m change (v || needsStats)
  | none => m ++ [(change, needsStats)]

def fileWatcherChange (m : List (JStr × Bool)) (e : RawEvt) :
    List (JStr × Bool) :=
  match toRegistration e with
  | some (c, needs) => enqueueChange m c needs
  | none => m

/-- The pending-changes map accumulated over one coalescing window. -/
def registerWindow (evts : List RawEvt) : List (JStr × Bool) :=
  evts.foldl fileWatcherChange []

/-- The `FileSystemStats` object the facade builds (`_mapNodeStats`);
the optimistic-concurrency hash is the modification time. -/
structure StatsF where
  isFile : Bool
  mtime : Int
  size : Int
  hash : Int
  realPath : Option JStr
deriving DecidableEq, Repr

def mapNodeStats (o : StatsObj) : StatsF :=
  ⟨o.isFile, o.mtime, o.size, o.mtime, o.realpath⟩

/-- The facade's `stat` operation: worker statCmd, success mapped through
`_mapNodeStats`, failure through `_mapNodeError`.  (The buffer branch is
unreachable: statCmd passes an undefined encoding, so the worker always
formats the structured representation.) -/
def facadeStat (d : DoubleLE) (fs : FS) (path : JStr) : Except ErrorKind StatsF :=
  match statCmd d fs path with
  | .ok (.obj o) => .ok (mapNodeStats o)
  | .ok (.buffer _) => .ok ⟨true, 0, 0, 0, none⟩
  | .error e => .error (mapNodeError (some e))

/-- The callback invocations a window flush produces, in key order: a
needs-stats path is delivered `(path, stats)` when its stat succeeds and
suppressed when it fails; a structural path is delivered `(path)` alone. -/
def flushCallbacks (d : DoubleLE) (fs : FS) (m : List (JStr × Bool)) :
    List (JStr × Option StatsF) :=
  m.filterMap (fun e =>
    if e.2 then
      match facadeStat d fs e.1 with
      | .ok st => some (e.1, some st)
      | .error _ => none
    else some (e.1, none))

/-- The paths whose flush-time stat failed and was logged
(`console.warn("Unable to stat changed path: ", ...)`). -/
def flushWarnings (d : DoubleLE) (fs : FS) (m : List (JStr × Bool)) :
    List JStr :=
  m.filterMap (fun e =>
    if e.2 then
      match facadeStat d fs e.1 with
      | .ok _ => none
      | .error _ => some e.1
    else none)

/-- All registrations for path `p` among the notifications of a window. -/
def regsFor (p : JStr) (evts : List RawEvt) : List (JStr × Bool) :=
  (evts.filterMap toRegistration).filter (fun r => r.1 = p)

/-- The flag a path should end up with per the spec: absent when never
registered, otherwise the OR of all its registrations' flags. -/
def combineFlags (rs : List (JStr × Bool)) : Option Bool :=
  if rs.isEmpty then none else some (rs.any Prod.snd)

theorem lookupB_updateB_self {m : List (JStr × Bool)} {c : JStr} {b : Bool} :
    lookupB (updateB m c b) c = (lookupB m c).map (fun _ => b) := by
  induction m with
  | nil => rfl
  | cons e rest ih =>
    obtain ⟨q, v⟩ := e
    by_cases hq : q = c
    · subst hq
      simp [updateB, lookupB]
    · simp [updateB, lookupB, hq, ih]

theorem lookupB_updateB_other {m : List (JStr × Bool)} {c x : JStr} {b : Bool}
    (hx : x ≠ c) : lookupB (updateB m c b) x = lookupB m x := by
  induction m with
  | nil => rfl
  | cons e rest ih =>
    obtain ⟨q, v⟩ := e
    by_cases hq : q = c
    · subst hq
      have hqx : ¬(q = x) := fun h => hx (h.symm)
      simp [updateB, lookupB, hqx]
    · simp only [updateB, if_neg hq, lookupB]
      by_cases hq2 : q = x
      · simp [hq2]
      · simp [hq2, ih]

theorem lookupB_append {m l : List (JStr × Bool)} {x : JStr} :
    lookupB (m ++ l) x = (lookupB m x).or (lookupB l x) := by
  induction m with
  | nil => simp [lookupB]
  | cons e rest ih =>
    obtain ⟨q, v⟩ := e
    by_cases hq : q = x
    · simp [lookupB, hq]
    · simp [lookupB, hq, ih]

theorem lookupB_enqueueChange (m : List (JStr × Bool)) (c x : JStr)
    (needs : Bool) :
    lookupB (enqueueChange m c needs) x =
      if x = c then some ((lookupB m c).getD false || needs)
      else lookupB m x := by
  unfold enqueueChange
  cases h : lookupB m c with
  | none =>
    rw [lookupB_append]
    by_cases hx : x = c
    · subst hx
      rw [h, if_pos rfl]
      simp [lookupB]
    · rw [if_neg hx]
      have hcx : ¬(c = x) := fun h2 => hx h2.symm
      simp [lookupB, hcx]
  | some v =>
    by_cases hx : x = c
    · subst hx
      rw [lookupB_updateB_self, h, if_pos rfl]
      simp
    · rw [lookupB_updateB_other hx, if_neg hx]

theorem updateB_map_fst (m : List (JStr × Bool)) (c : JStr) (b : Bool) :
    (updateB m c b).map Prod.fst = m.map Prod.fst := by
  induction m with
  | nil => rfl
  | cons e rest ih =>
    obtain ⟨q, v⟩ := e
    by_cases hq : q = c
    · simp [updateB, hq]
    · simp [updateB, hq, ih]

theorem lookupB_eq_none_iff {m : List (JStr × Bool)} {x : JStr} :
    lookupB m x = none ↔ x ∉ m.map Prod.fst := by
  induction m with
  | nil => simp [lookupB]
  | cons e rest ih =>
    obtain ⟨q, v⟩ := e
    by_cases hq : q = x
    · subst hq
      simp [lookupB]
    · simp only [lookupB, if_neg hq, List.map_cons, List.mem_cons, ih]
      constructor
      · intro h h2
        rcases h2 with h2 | h2
        · exact hq h2.symm
        · exact h h2
      · intro h h2
        exact h (Or.inr h2)

theorem lookupB_mem {m : List (JStr × Bool)} {p : JStr} {v : Bool}
    (h : lookupB m p = some v) : (p, v) ∈ m := by
  induction m with
  | nil => cases h
  | cons e rest ih =>
    obtain ⟨q, w⟩ := e
    by_cases hq : q = p
    · subst hq
      have hv : w = v := by simpa [lookupB] using h
      subst hv
      exact List.mem_cons_self _ _
    · simp only [lookupB, if_neg hq] at h
      exact List.mem_cons_of_mem _ (ih h)

theorem enqueueChange_keys_nodup {m : List (JStr × Bool)} {c : JStr}
    {needs : Bool} (h : (m.map Prod.fst).Nodup) :
    ((enqueueChange m c needs).map Prod.fst).Nodup := by
  unfold enqueueChange
  cases hl : lookupB m c with
  | some v =>
    rw [updateB_map_fst]
    exact h
  | none =>
    have hnm : c ∉ m.map Prod.fst := lookupB_eq_none_iff.1 hl
    simp only [List.map_append, List.map_cons, List.map_nil]
    rw [List.nodup_append]
    refine ⟨h, List.nodup_singleton c, ?_⟩
    intro x hx hx2
    simp only [List.mem_singleton] at hx2
    subst hx2
    exact hnm hx

theorem registerWindow_aux_nodup :
    ∀ (evts : List RawEvt) (m : List (JStr × Bool)),
      (m.map Prod.fst).Nodup →
      ((evts.foldl fileWatcherChange m).map Prod.fst).Nodup := by
  intro evts
  induction evts with
  | nil => intro m h; exact h
  | cons e rest ih =>
    intro m h
    simp only [List.foldl_cons]
    apply ih
    unfold fileWatcherChange
    cases toRegistration e with
    | none => exact h
    | some r => exact enqueueChange_keys_nodup h

theorem registerWindow_nodup (evts : List RawEvt) :
    ((registerWindow evts).map Prod.fst).Nodup :=
  registerWindow_aux_nodup evts [] List.nodup_nil

theorem foldl_fileWatcherChange_lookup (p : JStr) :
    ∀ (evts : List RawEvt) (m : List (JStr × Bool)),
      lookupB (evts.foldl fileWatcherChange m) p =
        if (regsFor p evts).isEmpty then lookupB m p
        else some ((lookupB m p).getD false || (regsFor p evts).any Prod.snd) := by
  intro evts
  induction evts with
  | nil =>
    intro m
    simp [regsFor]
  | cons e rest ih =>
    intro m
    simp only [List.foldl_cons]
    cases hre : toRegistration e with
    | none =>
      have hm2 : fileWatcherChange m e = m := by
        rw [fileWatcherChange, hre]
      have hregs : regsFor p (e :: rest) = regsFor p rest := by
        simp [regsFor, List.filterMap_cons, hre]
      rw [hm2, ih, hregs]
    | some r =>
      obtain ⟨c, b⟩ := r
      have hm2 : fileWatcherChange m e = enqueueChange m c b := by
        rw [fileWatcherChange, hre]
      rw [hm2, ih]
      by_cases hc : c = p
      · subst hc
        have hregs : regsFor c (e :: rest) = (c, b) :: regsFor c rest := by
          simp [regsFor, List.filterMap_cons, hre]
        rw [hregs, lookupB_enqueueChange]
        rw [if_pos rfl]
        by_cases hrs : (regsFor c rest).isEmpty
        · rw [if_pos hrs]
          have hnil : regsFor c rest = [] := List.isEmpty_iff.mp hrs
          rw [hnil]
          simp
        · rw [if_neg hrs]
          simp only [List.isEmpty_cons, if_false, Bool.false_eq_true,
            List.any_cons, Option.getD_some, Option.some_inj]
          rw [Bool.or_assoc]
      · have hregs : regsFor p (e :: rest) = regsFor p rest := by
          simp [regsFor, List.filterMap_cons, hre, hc]
        rw [hregs, lookupB_enqueueChange]
        have hpc : (if p = c then some ((lookupB m c).getD false || b)
            else lookupB m p) = lookupB m p := if_neg (fun h => hc h.symm)
        rw [hpc]

theorem flushCallbacks_keys {d : DoubleLE} {fs : FS} {m : List (JStr × Bool)}
    {x : JStr × Option StatsF} (hx : x ∈ flushCallbacks d fs m) :
    x.1 ∈ m.map Prod.fst := by
  simp only [flushCallbacks, List.mem_filterMap] at hx
  obtain ⟨e, hmem, he⟩ := hx
  by_cases hb : e.2 = true
  · rw [if_pos hb] at he
    cases hst : facadeStat d fs e.1 with
    | ok st =>
      rw [hst] at he
      rw [Option.some_inj] at he
      subst he
      exact List.mem_map_of_mem _ hmem
    | error er =>
      rw [hst] at he
      cases he
  · rw [if_neg hb, Option.some_inj] at he
    subst he
    exact List.mem_map_of_mem _ hmem

theorem flushCallbacks_filter (d : DoubleLE) (fs : FS) :
    ∀ (m : List (JStr × Bool)) (p : JStr) (b : Bool),
      (m.map Prod.fst).Nodup → lookupB m p = some b →
      (flushCallbacks d fs m).filter (fun e => e.1 = p) =
        (if b then
          match facadeStat d fs p with
          | .ok st => [(p, some st)]
          | .error _ => []
        else [(p, none)]) := by
  intro m
  induction m with
  | nil =>
    intro p b _ h
    cases h
  | cons e rest ih =>
    obtain ⟨q, v⟩ := e
    intro p b hnd hl
    simp only [List.map_cons, List.nodup_cons] at hnd
    obtain ⟨hqnm, hndr⟩ := hnd
    by_cases hq : q = p
    · subst hq
      have hvb : v = b := by simpa [lookupB] using hl
      subst hvb
      have hrest : (flushCallbacks d fs rest).filter (fun e2 => e2.1 = q) = [] := by
        rw [List.filter_eq_nil]
        intro a ha
        simp only [decide_eq_true_eq]
        intro hq2
        exact hqnm (hq2 ▸ flushCallbacks_keys ha)
      cases v with
      | true =>
        cases hst : facadeStat d fs q with
        | ok st =>
          rw [show flushCallbacks d fs ((q, true) :: rest) =
              (q, some st) :: flushCallbacks d fs rest from by
            simp [flushCallbacks, List.filterMap_cons, hst]]
          rw [List.filter_cons_of_pos (by simp), hrest]
          simp [hst]
        | error er =>
          rw [show flushCallbacks d fs ((q, true) :: rest) =
              flushCallbacks d fs rest from by
            simp [flushCallbacks, List.filterMap_cons, hst]]
          rw [hrest]
          simp [hst]
      | false =>
        rw [show flushCallbacks d fs ((q, false) :: rest) =
            (q, none) :: flushCallbacks d fs rest from by
          simp [flushCallbacks, List.filterMap_cons]]
        rw [List.filter_cons_of_pos (by simp), hrest]
        simp
    · simp only [lookupB, if_neg hq] at hl
      have ihh := ih p b hndr hl
      cases v with
      | true =>
        cases hst : facadeStat d fs q with
        | ok st =>
          rw [show flushCallbacks d fs ((q, true) :: rest) =
              (q, some st) :: flushCallbacks d fs rest from by
            simp [flushCallbacks, List.filterMap_cons, hst]]
          rw [List.filter_cons_of_neg (by simp [hq])]
          exact ihh
        | error er =>
          rw [show flushCallbacks d fs ((q, true) :: rest) =
              flushCallbacks d fs rest from by
            simp [flushCallbacks, List.filterMap_cons, hst]]
          exact ihh
      | false =>
        rw [show flushCallbacks d fs ((q, false) :: rest) =
            (q, none) :: flushCallbacks d fs rest from by
          simp [flushCallbacks, List.filterMap_cons]]
        rw [List.filter_cons_of_neg (by simp [hq])]
        exact ihh

theorem flushCallbacks_mem_none {d : DoubleLE} {fs : FS}
    {m : List (JStr × Bool)} {q : JStr} (h : (q, false) ∈ m) :
    (q, none) ∈ flushCallbacks d fs m := by
  simp only [flushCallbacks, List.mem_filterMap]
  exact ⟨(q, false), h, rfl⟩

theorem flushCallbacks_mem_some {d : DoubleLE} {fs : FS}
    {m : List (JStr × Bool)} {q : JStr} {st : StatsF} (h : (q, true) ∈ m)
    (hst : facadeStat d fs q = .ok st) :
    (q, some st) ∈ flushCallbacks d fs m := by
  simp only [flushCallbacks, List.mem_filterMap]
  refine ⟨(q, true), h, ?_⟩
  simp [hst]

theorem flushWarnings_mem {d : DoubleLE} {fs : FS} {m : List (JStr × Bool)}
    {p : JStr} {e : ErrorKind} (h : (p, true) ∈ m)
    (he : facadeStat d fs p = .error e) :
    p ∈ flushWarnings d fs m := by
  simp only [flushWarnings, List.mem_filterMap]
  refine ⟨(p, true), h, ?_⟩
  simp [he]

/-- Claim C7: within one coalescing window, the needsStats flag registered
for a path is exactly the OR of the flags of all notifications for that
path (absent when the path was never registered) — it only ever
strengthens; a path whose flag ends up false (structural only) flushes
with exactly one callback carrying no stat record, and a path whose flag
ends up true (at least one content change) flushes with exactly one
callback carrying one stat record (when its stat succeeds). -/
theorem C7_coalescing_needsStats (d : DoubleLE) (fs : FS) (evts : List RawEvt)
    (p : JStr) :
    lookupB (registerWindow evts) p = combineFlags (regsFor p evts) ∧
    (lookupB (registerWindow evts) p = some false →
      (flushCallbacks d fs (registerWindow evts)).filter (fun e => e.1 = p) =
        [(p, none)]) ∧
    (∀ st, lookupB (registerWindow evts) p = some true →
      facadeStat d fs p = .ok st →
      (flushCallbacks d fs (registerWindow evts)).filter (fun e => e.1 = p) =
        [(p, some st)]) := by
  have hfold := foldl_fileWatcherChange_lookup p evts ([] : List (JStr × Bool))
  have hmain : lookupB (registerWindow evts) p = combineFlags (regsFor p evts) := by
    rw [registerWindow, hfold]
    unfold combineFlags
    by_cases hrs : (regsFor p evts).isEmpty
    · rw [if_pos hrs, if_pos hrs]
      rfl
    · rw [if_neg hrs, if_neg hrs]
      simp [lookupB]
  refine ⟨hmain, ?_, ?_⟩
  · intro hfalse
    have hf := flushCallbacks_filter d fs (registerWindow evts) p false
      (registerWindow_nodup evts) hfalse
    simpa using hf
  · intro st htrue hst
    have hf := flushCallbacks_filter d fs (registerWindow evts) p true
      (registerWindow_nodup evts) htrue
    rw [hst] at hf
    simpa using hf

/-- A demo window: a structural notification for "/w/", then a content
change of "/w/f", then another structural notification for "/w/". -/
def demoEvts : List RawEvt :=
  [⟨['/', 'w', '/'], "rename", none⟩,
   ⟨['/', 'w', '/'], "change", some ['f']⟩,
   ⟨['/', 'w', '/'], "rename", none⟩]

/-- A snapshot holding the changed file "/w/f". -/
def fsFlushDemo : FS :=
  [(['/', 'w', '/', 'f'], FSNode.file 7 3 ['h', 'i'] false)]

/-- Witness for `C7_coalescing_needsStats`: in the demo window, the
structural-only path "/w/" flushes with no stat record and the
content-changed path "/w/f" flushes with exactly one stat record. -/
theorem C7_coalescing_needsStats_witness :
    (flushCallbacks doubleLEzero fsFlushDemo (registerWindow demoEvts)).filter
        (fun e => e.1 = ['/', 'w', '/']) = [(['/', 'w', '/'], none)] ∧
    (flushCallbacks doubleLEzero fsFlushDemo (registerWindow demoEvts)).filter
        (fun e => e.1 = ['/', 'w', '/', 'f']) =
      [(['/', 'w', '/', 'f'], some ⟨true, 7, 3, 7, none⟩)] :=
  ⟨(C7_coalescing_needsStats doubleLEzero fsFlushDemo demoEvts
      ['/', 'w', '/']).2.1 (by decide),
   (C7_coalescing_needsStats doubleLEzero fsFlushDemo demoEvts
      ['/', 'w', '/', 'f']).2.2 ⟨true, 7, 3, 7, none⟩ (by decide) (by decide)⟩

/-- Claim C9: when a path's enrichment stat fails during a window flush,
that path's callback is suppressed (no delivery for it at all), the
failure is logged, and no error is propagated; every other registered path
is still delivered per its own flag. -/
theorem C9_flush_stat_failure (d : DoubleLE) (fs : FS) (evts : List RawEvt)
    (p : JStr) (e : ErrorKind)
    (hp : lookupB (registerWindow evts) p = some true)
    (herr : facadeStat d fs p = .error e) :
    ((flushCallbacks d fs (registerWindow evts)).filter
        (fun x => x.1 = p) = [] ∧
      (∀ x ∈ flushCallbacks d fs (registerWindow evts), x.1 ≠ p)) ∧
    p ∈ flushWarnings d fs (registerWindow evts) ∧
    (∀ q, lookupB (registerWindow evts) q = some false →
      (q, none) ∈ flushCallbacks d fs (registerWindow evts)) ∧
    (∀ q st, lookupB (registerWindow evts) q = some true →
      facadeStat d fs q = .ok st →
      (q, some st) ∈ flushCallbacks d fs (registerWindow evts)) := by
  have hf := flushCallbacks_filter d fs (registerWindow evts) p true
    (registerWindow_nodup evts) hp
  rw [herr] at hf
  simp only [if_pos rfl] at hf
  have hempty : (flushCallbacks d fs (registerWindow evts)).filter
      (fun x => x.1 = p) = [] := by
    simpa using hf
  refine ⟨⟨hempty, ?_⟩, ?_, ?_, ?_⟩
  · intro x hx hxp
    have hall := List.filter_eq_nil.1 hempty x hx
    simp only [decide_eq_true_eq] at hall
    exact hall hxp
  · exact flushWarnings_mem (lookupB_mem hp) herr
  · intro q hq
    exact flushCallbacks_mem_none (lookupB_mem hq)
  · intro q st hq hst
    exact flushCallbacks_mem_some (lookupB_mem hq) hst

/-- Witness for `C9_flush_stat_failure`: on an empty snapshot the stat of
"/w/f" fails with NotFound; its callback is suppressed and logged while
the structural path "/w/" would still be delivered. -/
theorem C9_flush_stat_failure_witness :
    ((flushCallbacks doubleLEzero [] (registerWindow demoEvts)).filter
        (fun x => x.1 = ['/', 'w', '/', 'f']) = [] ∧
      (∀ x ∈ flushCallbacks doubleLEzero [] (registerWindow demoEvts),
        x.1 ≠ ['/', 'w', '/', 'f'])) ∧
    ['/', 'w', '/', 'f'] ∈ flushWarnings doubleLEzero [] (registerWindow demoEvts) ∧
    (∀ q, lookupB (registerWindow demoEvts) q = some false →
      (q, none) ∈ flushCallbacks doubleLEzero [] (registerWindow demoEvts)) ∧
    (∀ q st, lookupB (registerWindow demoEvts) q = some true →
      facadeStat doubleLEzero [] q = .ok st →
      (q, some st) ∈ flushCallbacks doubleLEzero [] (registerWindow demoEvts)) :=
  C9_flush_stat_failure doubleLEzero [] demoEvts ['/', 'w', '/', 'f']
    .NOT_FOUND (by decide) (by decide)

/-! ### RequestScheduler (facade `_enqueueRequest` / `_dequeueRequest`) -/

/-- Scheduler state: the FIFO waiting list (`_waitingRequests`), the
in-flight requests counted by `_pendingRequestCount` (kept as labels so
the count is observable), and the submission/admission histories used to
state the ordering guarantee.  Labels number requests in submission
order. -/
structure SchedState where
  waiting : List Nat
  inflight : List Nat
  admitted : List Nat
  submitted : List Nat
  nextLabel : Nat
deriving DecidableEq, Repr

def initSched : SchedState := ⟨[], [], [], [], 0⟩

/-- `_dequeueRequest()`: admit the head of the waiting list whenever the
in-flight count is at or below the bound
(`_pendingRequestCount <= MAX_CONNECTIONS`). -/
def dequeueRequest (maxConn : Int) (s : SchedState) : SchedState :=
  match s.waiting with
  | [] => s
  | r :: rest =>
    if (s.inflight.length : Int) ≤ maxConn then
      { s with
        waiting := rest
        inflight := s.inflight ++ [r]
        admitted := s.admitted ++ [r] }
    else s

/-- The state after pushing one fresh request label
(`_waitingRequests.push(fn)` together with its submission record). -/
def pushRequest (s : SchedState) : SchedState :=
  { s with
    waiting := s.waiting ++ [s.nextLabel]
    submitted := s.submitted ++ [s.nextLabel]
    nextLabel := s.nextLabel + 1 }

/-- `_enqueueRequest(fn)`: with a negative bound the task runs immediately
and no scheduler state is touched; otherwise push onto the waiting list
and attempt a dequeue only when the queue was empty before the push
(`_waitingRequests.length > 1 || !_dequeueRequest()`). -/
def enqueueRequest (maxConn : Int) (s : SchedState) : SchedState :=
  if maxConn < 0 then s
  else
    let s1 := pushRequest s
    if s1.waiting.length > 1 then s1 else dequeueRequest maxConn s1

/-- Completion of an admitted request: `_pendingRequestCount--` followed by
one `setTimeout(_dequeueRequest, 0)`. -/
def completeRequest (maxConn : Int) (s : SchedState) (r : Nat) : SchedState :=
  if r ∈ s.inflight then
    dequeueRequest maxConn { s with inflight := s.inflight.erase r }
  else s

inductive SchedEvt
  | submit
  | complete (r : Nat)
deriving DecidableEq, Repr

def schedStep (maxConn : Int) (s : SchedState) : SchedEvt → SchedState
  | .submit => enqueueRequest maxConn s
  | .complete r => completeRequest maxConn s r

/-- Run a trace of submissions and completions from the initial state. -/
def runSched (maxConn : Int) (evts : List SchedEvt) : SchedState :=
  evts.foldl (schedStep maxConn) initSched

theorem dequeueRequest_inv {N : Nat} {s : SchedState}
    (h1 : s.submitted = s.admitted ++ s.waiting)
    (h2 : s.inflight.length ≤ N + 1) :
    ((dequeueRequest (N : Int) s).submitted =
      (dequeueRequest (N : Int) s).admitted ++
        (dequeueRequest (N : Int) s).waiting) ∧
    (dequeueRequest (N : Int) s).inflight.length ≤ N + 1 := by
  match hw : s.waiting with
  | [] =>
    rw [hw] at h1
    simp only [dequeueRequest, hw]
    exact ⟨h1, h2⟩
  | r :: rest =>
    rw [hw] at h1
    simp only [dequeueRequest, hw]
    by_cases hle : (s.inflight.length : Int) ≤ (N : Int)
    · rw [if_pos hle]
      have hlen : s.inflight.length ≤ N := by exact_mod_cast hle
      constructor
      · simp only []
        rw [h1, List.append_assoc]
        rfl
      · simp only [List.length_append, List.length_cons, List.length_nil]
        omega
    · rw [if_neg hle]
      refine ⟨?_, h2⟩
      rw [hw]
      exact h1

theorem schedStep_inv (N : Nat) (s : SchedState) (e : SchedEvt)
    (h1 : s.submitted = s.admitted ++ s.waiting)
    (h2 : s.inflight.length ≤ N + 1) :
    ((schedStep (N : Int) s e).submitted =
      (schedStep (N : Int) s e).admitted ++ (schedStep (N : Int) s e).waiting) ∧
    (schedStep (N : Int) s e).inflight.length ≤ N + 1 := by
  cases e with
  | submit =>
    simp only [schedStep, enqueueRequest]
    rw [if_neg (by omega : ¬((N : Int) < 0))]
    have h1b : (pushRequest s).submitted =
        (pushRequest s).admitted ++ (pushRequest s).waiting := by
      simp only [pushRequest]
      rw [h1, List.append_assoc]
    have h2b : (pushRequest s).inflight.length ≤ N + 1 := h2
    split
    · exact ⟨h1b, h2b⟩
    · exact dequeueRequest_inv h1b h2b
  | complete r =>
    simp only [schedStep, completeRequest]
    by_cases hmem : r ∈ s.inflight
    · rw [if_pos hmem]
      have h2b : (({ s with inflight := s.inflight.erase r } : SchedState)).inflight.length
          ≤ N + 1 := by
        simp only []
        exact le_trans (List.Sublist.length_le (s.inflight.erase_sublist r)) h2
      exact dequeueRequest_inv h1 h2b
    · rw [if_neg hmem]
      exact ⟨h1, h2⟩

theorem sched_inv (N : Nat) :
    ∀ (evts : List SchedEvt) (s : SchedState),
      s.submitted = s.admitted ++ s.waiting →
      s.inflight.length ≤ N + 1 →
      ((evts.foldl (schedStep (N : Int)) s).submitted =
        (evts.foldl (schedStep (N : Int)) s).admitted ++
          (evts.foldl (schedStep (N : Int)) s).waiting) ∧
      (evts.foldl (schedStep (N : Int)) s).inflight.length ≤ N + 1 := by
  intro evts
  induction evts with
  | nil =>
    intro s h1 h2
    exact ⟨h1, h2⟩
  | cons e rest ih =>
    intro s h1 h2
    simp only [List.foldl_cons]
    obtain ⟨h1b, h2b⟩ := schedStep_inv N s e h1 h2
    exact ih _ h1b h2b

/-- Claim C2, counterexample: with the source's bound `MAX_CONNECTIONS = 6`,
seven consecutive submissions (no completions in between) are all
admitted, because the dequeue guard is `_pendingRequestCount <= bound`;
the in-flight count reaches 7 > 6, refuting "in-flight never exceeds N". -/
theorem C2_counterexample :
    (runSched 6 (List.replicate 7 SchedEvt.submit)).inflight.length = 7 ∧
    ¬((runSched 6 (List.replicate 7 SchedEvt.submit)).inflight.length ≤ 6) := by
  decide

/-- Claim C2 (amended): under a finite concurrency bound N, the number of
in-flight requests never exceeds N + 1 (admission occurs while the count
is at or below N, so the count can reach N + 1 but no more), and waiting
requests are admitted in exactly the order they were submitted: at every
instant the admission history followed by the still-waiting queue is
precisely the submission history. -/
theorem C2_scheduler_bound (N : Nat) (evts : List SchedEvt) :
    (runSched (N : Int) evts).submitted =
      (runSched (N : Int) evts).admitted ++ (runSched (N : Int) evts).waiting ∧
    (runSched (N : Int) evts).inflight.length ≤ N + 1 :=
  sched_inv N evts initSched rfl (by simp [initSched])

/-! ### Single and bulk file read (`_readFileHelper`, `readAllFilesCmd`,
facade `readAllFiles`) -/

/-- `_strencode` / `strdecode`: the JSON+URI transcoding of text payloads
is out of scope (§1 of the spec excludes encoding of arbitrary UTF text
payloads); what matters here is that they form an encode/decode pair, so
they are modelled as the identity bijection. -/
def strencode (s : JStr) : JStr := s

def strdecode (s : JStr) : JStr := s

/-- `fs.readFile`: the raw content and whether `isBinaryFile` flags it
(one symlink hop is followed). -/
def readFileFS (fs : FS) (path : JStr) : Except String (JStr × Bool) :=
  match lookupFS fs path with
  | none => .error "ENOENT"
  | some (.file _ _ content b) => .ok (content, b)
  | some (.dir _ _) => .error "EISDIR"
  | some (.errNode c) => .error c
  | some (.symlink t) =>
    match lookupFS fs t with
    | some (.file _ _ content b) => .ok (content, b)
    | some (.dir _ _) => .error "EISDIR"
    | some (.errNode c) => .error c
    | _ => .error "ENOENT"

/-- The structured single-read response: stat fields plus the encoded
text payload (`stats.data = _strencode(...)`). -/
structure ReadResponse where
  stats : StatsObj
  data : JStr
deriving DecidableEq, Repr

/-- `_readFileHelper(path, encoding)` in the text regime the facade always
uses (`options.encoding || "utf8"`, never null): read and stat are
joined; a heuristically binary payload is rejected with the string
"Binary file"; otherwise the stat object is extended with the encoded
data.  (The binary concat regime is never reached from the facade.) -/
def readFileHelper (d : DoubleLE) (fs : FS) (path : JStr) (enc : JsEncoding) :
    Except JsErr ReadResponse :=
  match readFileFS fs path, statHelper d fs path enc with
  | .ok (content, bin), .ok (.obj o) =>
    if bin then .error (.strErr "Binary file")
    else .ok ⟨o, strencode content⟩
  | .ok _, .ok (.buffer _) => .error (.strErr "Binary file")
  | .error c, _ => .error (.fsErr c)
  | _, .error e => .error e

/-- One worker entry of the bulk-read response in the text regime:
`Promise.settle` turns each path's outcome into either the response or an
`{err: value}` object, never failing the whole batch. -/
inductive ReadEntry
  | okEntry (r : ReadResponse)
  | errEntry (e : JsErr)
deriving DecidableEq, Repr

/-- `readAllFilesCmd(paths, encoding)` in the text regime. -/
def readAllFilesCmdT (d : DoubleLE) (fs : FS) (paths : List JStr)
    (enc : JsEncoding) : List ReadEntry :=
  paths.map (fun p =>
    match readFileHelper d fs p enc with
    | .ok r => .okEntry r
    | .error e => .errEntry e)

/-- What one path contributes to the facade's readAllFiles callback:
its decoded data and mapped stats, or its translated ErrorKind. -/
def perPathReadResult (d : DoubleLE) (fs : FS) (enc : JsEncoding) (p : JStr) :
    Except ErrorKind (JStr × StatsF) :=
  match readFileHelper d fs p enc with
  | .ok r => .ok (strdecode r.data, mapNodeStats r.stats)
  | .error e => .error (mapNodeError (some e))

/-- The facade's `readAllFiles(paths, options, callback)`: one RPC with the
full list, then a per-entry map (`obj.err` entries are translated, the
rest decoded). -/
def facadeReadAllFiles (d : DoubleLE) (fs : FS) (paths : List JStr)
    (optEncoding : Option String) :
    Except ErrorKind (List (Except ErrorKind (JStr × StatsF))) :=
  let enc := JsEncoding.strEnc (optEncoding.getD "utf8")
  .ok ((readAllFilesCmdT d fs paths enc).map (fun r =>
    match r with
    | .errEntry e => .error (mapNodeError (some e))
    | .okEntry rr => .ok (strdecode rr.data, mapNodeStats rr.stats)))

/-- Claim C6: readAllFiles never fails the batch; it returns exactly one
result per input path, in input order, where the i-th entry is a function
of the i-th path alone (its success payload or its ErrorKind), so no
path's failure suppresses any other entry. -/
theorem C6_readAllFiles_order (d : DoubleLE) (fs : FS) (paths : List JStr)
    (optEnc : Option String) :
    facadeReadAllFiles d fs paths optEnc =
      .ok (paths.map
        (perPathReadResult d fs (JsEncoding.strEnc (optEnc.getD "utf8")))) ∧
    (paths.map
      (perPathReadResult d fs (JsEncoding.strEnc (optEnc.getD "utf8")))).length
        = paths.length ∧
    (∀ i, (paths.map
      (perPathReadResult d fs (JsEncoding.strEnc (optEnc.getD "utf8")))).get? i
        = (paths.get? i).map
            (perPathReadResult d fs (JsEncoding.strEnc (optEnc.getD "utf8")))) := by
  refine ⟨?_, List.length_map _ _, fun i => List.get?_map _ _ _⟩
  unfold facadeReadAllFiles readAllFilesCmdT
  simp only [List.map_map, Except.ok.injEq]
  apply List.map_congr_left
  intro p _
  simp only [Function.comp_apply, perPathReadResult]
  cases readFileHelper d fs p (JsEncoding.strEnc (optEnc.getD "utf8")) with
  | ok r => rfl
  | error e => rfl

/-! ### writeFile with the optimistic concurrency check -/

/-- Update or append an entry. -/
def setFS : FS → JStr → FSNode → FS
  | [], p, nd => [(p, nd)]
  | (q, old) :: rest, p, nd =>
    if q = p then (q, nd) :: rest else (q, old) :: setFS rest p nd

/-- `fs.writeFile(path, data)`: create or overwrite the file (following a
symlink one hop), with the new mtime `now` and size = character count. -/
def writeFS (fs : FS) (path : JStr) (data : JStr) (now : Int) :
    Except String FS :=
  match lookupFS fs path with
  | some (.dir _ _) => .error "EISDIR"
  | some (.errNode c) => .error c
  | some (.symlink t) =>
    match lookupFS fs t with
    | some (.dir _ _) => .error "EISDIR"
    | some (.errNode c) => .error c
    | _ => .ok (setFS fs t (.file now (data.length : Int) data false))
  | _ => .ok (setFS fs path (.file now (data.length : Int) data false))

/-- `writeFileCmd(path, data, encoding)`: record existence first, write,
stat the result, and report `created = !exists`. -/
def writeFileCmdT (d : DoubleLE) (fs : FS) (path : JStr) (data : JStr)
    (now : Int) : Except JsErr (StatsObj × Bool) × FS :=
  let ex := existsFS fs path
  match writeFS fs path data now with
  | .error c => (.error (.fsErr c), fs)
  | .ok fs2 =>
    match statHelper d fs2 path .undefinedEnc with
    | .ok (.obj o) => (.ok (o, !ex), fs2)
    | .ok (.buffer _) => (.error (.strErr "unreachable"), fs2)
    | .error e => (.error e, fs2)

/-- The facade's `_finishWrite`: issue the worker write and map its
outcome. -/
def finishWriteT (d : DoubleLE) (fs : FS) (path : JStr) (data : JStr)
    (now : Int) : Except ErrorKind (StatsF × Bool) × FS :=
  match writeFileCmdT d fs path data now with
  | (.ok (o, created), fs2) => (.ok (mapNodeStats o, created), fs2)
  | (.error e, fs2) => (.error (mapNodeError (some e)), fs2)

/-- The facade's `writeFile(path, data, options, callback)`: stat first;
NotFound lets the write proceed, any other stat failure is surfaced
unchanged; with a present concurrency token that differs from the freshly
observed hash, fail with ContentsModified and do not write. -/
def facadeWriteFile (d : DoubleLE) (fs : FS) (path : JStr) (data : JStr)
    (optHash : Option Int) (now : Int) :
    Except ErrorKind (StatsF × Bool) × FS :=
  match facadeStat d fs path with
  | .error err =>
    if err = .NOT_FOUND then finishWriteT d fs path data now
    else (.error err, fs)
  | .ok stats =>
    match optHash with
    | some h =>
      if h ≠ stats.hash then (.error .CONTENTS_MODIFIED, fs)
      else finishWriteT d fs path data now
    | none => finishWriteT d fs path data now

theorem setFS_lookup_self (fs : FS) (p : JStr) (nd : FSNode) :
    lookupFS (setFS fs p nd) p = some nd := by
  induction fs with
  | nil => simp [setFS, lookupFS]
  | cons e rest ih =>
    obtain ⟨q, old⟩ := e
    by_cases hq : q = p
    · subst hq
      simp [setFS, lookupFS]
    · simp [setFS, lookupFS, hq, ih]

/-- Claim C5: (a) a write whose concurrency token differs from the freshly
observed hash of an existing target fails with ContentsModified and the
filesystem is unchanged (no write RPC); (b) when the preliminary stat
fails with NotFound (the path is absent), the write proceeds and is
reported as a creation; (c) when the preliminary stat fails otherwise,
the write is not performed and that error is returned unchanged. -/
theorem C5_writeFile_concurrency (d : DoubleLE) (fs : FS) (path data : JStr)
    (now : Int) (hnp : stripTrailingSlash path = path) :
    (∀ h stats, facadeStat d fs path = .ok stats → h ≠ stats.hash →
      facadeWriteFile d fs path data (some h) now =
        (.error .CONTENTS_MODIFIED, fs)) ∧
    (lookupFS fs path = none →
      facadeStat d fs path = .error .NOT_FOUND ∧
      ∀ optHash, facadeWriteFile d fs path data optHash now =
        (.ok (⟨true, now, (data.length : Int), now, none⟩, true),
          setFS fs path (.file now (data.length : Int) data false))) ∧
    (∀ e, facadeStat d fs path = .error e → e ≠ .NOT_FOUND →
      ∀ optHash, facadeWriteFile d fs path data optHash now =
        (.error e, fs)) := by
  refine ⟨?_, ?_, ?_⟩
  · intro h stats hstat hne
    simp only [facadeWriteFile, hstat]
    rw [if_pos hne]
  · intro habs
    have hstat : facadeStat d fs path = .error .NOT_FOUND := by
      simp [facadeStat, statCmd, statHelper, hnp, lstatFS, habs, mapNodeError]
    refine ⟨hstat, ?_⟩
    intro optHash
    have hex : existsFS fs path = false := by
      simp [existsFS, statFS, habs]
    have hw : writeFS fs path data now =
        .ok (setFS fs path (.file now (data.length : Int) data false)) := by
      simp [writeFS, habs]
    have hself := setFS_lookup_self fs path
      (.file now (data.length : Int) data false)
    have hst2 : statHelper d
        (setFS fs path (.file now (data.length : Int) data false)) path
        .undefinedEnc =
        .ok (.obj ⟨true, now, (data.length : Int), none⟩) := by
      simp [statHelper, hnp, lstatFS, hself, formatStats, getStatsObject]
    have hfin : finishWriteT d fs path data now =
        (.ok (⟨true, now, (data.length : Int), now, none⟩, true),
          setFS fs path (.file now (data.length : Int) data false)) := by
      simp [finishWriteT, writeFileCmdT, hex, hw, hst2, mapNodeStats]
    cases optHash with
    | none =>
      simp only [facadeWriteFile, hstat]
      simpa using hfin
    | some h =>
      simp only [facadeWriteFile, hstat]
      simpa using hfin
  · intro e hstat hne optHash
    simp only [facadeWriteFile, hstat]
    rw [if_neg hne]

/-- Snapshot with an existing file "/f" whose hash (mtime) is 10. -/
def fsWriteDemo : FS := [(['/', 'f'], FSNode.file 10 2 ['h', 'i'] false)]

/-- Snapshot with an inaccessible entry "/e" failing with EPERM. -/
def fsErrDemo : FS := [(['/', 'e'], FSNode.errNode "EPERM")]

/-- Witness for `C5_writeFile_concurrency`: a stale token (9 against hash
10) yields ContentsModified with the snapshot unchanged; a write to the
absent "/g" creates it and reports created; a write to the EPERM entry
"/e" surfaces NotReadable unchanged without writing. -/
theorem C5_writeFile_concurrency_witness :
    facadeWriteFile doubleLEzero fsWriteDemo ['/', 'f'] ['x'] (some 9) 11 =
      (.error .CONTENTS_MODIFIED, fsWriteDemo) ∧
    facadeWriteFile doubleLEzero [] ['/', 'g'] ['h', 'i'] none 12 =
      (.ok (⟨true, 12, 2, 12, none⟩, true),
        setFS [] ['/', 'g'] (.file 12 2 ['h', 'i'] false)) ∧
    facadeWriteFile doubleLEzero fsErrDemo ['/', 'e'] ['x'] none 13 =
      (.error .NOT_READABLE, fsErrDemo) :=
  ⟨(C5_writeFile_concurrency doubleLEzero fsWriteDemo ['/', 'f'] ['x'] 11
      (by decide)).1 9 ⟨true, 10, 2, 10, none⟩ (by decide) (by decide),
   ((C5_writeFile_concurrency doubleLEzero [] ['/', 'g'] ['h', 'i'] 12
      (by decide)).2.1 (by decide)).2 none,
   (C5_writeFile_concurrency doubleLEzero fsErrDemo ['/', 'e'] ['x'] 13
      (by decide)).2.2 .NOT_READABLE (by decide) (by decide) none⟩
